import Mathlib

/-!
Shallow embedding of the `express-middleware-chain` store subsystem
(`src/stores/MemoryStore.ts`) and of the rate-limit middleware decision logic
(`src/middleware/rateLimit.ts`).

Modelling conventions:
* JavaScript `Map` objects are modelled as association lists `List (String × α)`
  with JS `Map` semantics: `set` of an existing key updates the value in place
  (keeping the key's original insertion position), `set` of a new key appends at
  the end, and iteration order is list order.  `Map.keys().next().value` is the
  head of the list.
* JavaScript `Set<string>` objects are modelled as duplicate-free `List String`
  with `add` appending when absent and `delete` filtering the element out.
* `Date.now()` is modelled as an explicit `now : Nat` argument (milliseconds).
* JS truthiness checks are modelled literally: a numeric TTL of `0` is falsy
  (`ttl ? … : …`), an `expiresAt` of `0` is falsy, an empty string key or
  pattern is falsy (`if (firstKey)`, `if (!pattern)`).
* `StoreValue.tags` of `undefined` and an empty tag array behave identically in
  every code path (`if (!tags) return` versus a loop over no elements), so tags
  are modelled as a plain `List String`.
* Async operations complete atomically per call in the single-process engine,
  so each operation is a pure state transformer; fallible store backends are
  modelled with `Except` where the middleware's `try/catch` is concerned.
-/

/-- `StoreValue` from `src/stores/Store.ts`: an opaque payload plus optional
tags.  The payload is opaque to the store, so it is modelled by a `Nat`. -/
structure StoreValue where
  data : Nat
  tags : List String
deriving DecidableEq

/-- `CacheEntry` from `MemoryStore.ts`: `{value, expiresAt?}`. -/
structure CacheEntry where
  value : StoreValue
  expiresAt : Option Nat
deriving DecidableEq

/-- `RateLimitEntry` from `MemoryStore.ts`: `{count, resetAt}`. -/
structure RateLimitEntry where
  count : Nat
  resetAt : Nat
deriving DecidableEq

/-- `RateLimitResult` from `src/stores/Store.ts`: `{count, resetAt, remaining}`. -/
structure RateLimitResult where
  count : Nat
  resetAt : Nat
  remaining : Nat
deriving DecidableEq

/-- Lookup in a JS `Map` modelled as an association list (first match). -/
def mapFind {α : Type} (m : List (String × α)) (k : String) : Option α :=
  match m with
  | [] => none
  | (k', v) :: rest => if k' = k then some v else mapFind rest k

/-- JS `Map.set`: update in place if the key exists (keeping its insertion
position), otherwise append at the end. -/
def mapSet {α : Type} (m : List (String × α)) (k : String) (v : α) :
    List (String × α) :=
  match m with
  | [] => [(k, v)]
  | (k', v') :: rest => if k' = k then (k, v) :: rest else (k', v') :: mapSet rest k v

/-- JS `Map.delete`: remove the entry for the key (keys are unique in a map). -/
def mapDelete {α : Type} (m : List (String × α)) (k : String) :
    List (String × α) :=
  match m with
  | [] => []
  | (k', v') :: rest => if k' = k then rest else (k', v') :: mapDelete rest k

/-- JS `Set.add`: append when absent. -/
def setAdd (s : List String) (k : String) : List String :=
  if s.contains k then s else s ++ [k]

/-- JS `Set.delete`: remove the element. -/
def setDelete (s : List String) (k : String) : List String :=
  s.filter (fun x => x != k)

/-- The keys of a modelled map are pairwise distinct (the `Map` invariant). -/
def keysNodup {α : Type} (m : List (String × α)) : Prop :=
  (m.map Prod.fst).Nodup

instance {α : Type} (m : List (String × α)) : Decidable (keysNodup m) := by
  unfold keysNodup; infer_instance

/-- The state of a `MemoryStore`: the three private maps plus the `maxSize`
constructor option (`none` models an absent option). -/
structure MemoryStore where
  cache : List (String × CacheEntry)
  rateLimits : List (String × RateLimitEntry)
  tagIndex : List (String × List String)
  maxSize : Option Nat
deriving DecidableEq

/-- A freshly constructed `MemoryStore` with the given `maxSize` option. -/
def MemoryStore.empty (maxSize : Option Nat) : MemoryStore :=
  ⟨[], [], [], maxSize⟩

/-- The JS `Map` invariant for all three maps of a store state. -/
def MemoryStore.Wf (s : MemoryStore) : Prop :=
  keysNodup s.cache ∧ keysNodup s.rateLimits ∧ keysNodup s.tagIndex

instance : DecidablePred MemoryStore.Wf := fun s => by
  unfold MemoryStore.Wf keysNodup; infer_instance

/-- `MemoryStore.removeFromTagIndex`: for each tag, remove the key from the
tag's set and drop the tag's index entry when the set becomes empty. -/
def removeFromTagIndex (idx : List (String × List String)) (key : String)
    (tags : List String) : List (String × List String) :=
  tags.foldl (fun acc tag =>
    match mapFind acc tag with
    | none => acc
    | some keys =>
      let keys2 := setDelete keys key
      if keys2.isEmpty then mapDelete acc tag else mapSet acc tag keys2) idx

/-- The tag-index update at the end of `MemoryStore.set`: ensure each tag has a
set and add the key to it. -/
def addTags (idx : List (String × List String)) (key : String)
    (tags : List String) : List (String × List String) :=
  tags.foldl (fun acc tag =>
    match mapFind acc tag with
    | none => mapSet acc tag (setAdd [] key)
    | some keys => mapSet acc tag (setAdd keys key)) idx

/-- The expiry test `entry.expiresAt && Date.now() > entry.expiresAt` used by
both `get` and `cleanupExpired` (an `expiresAt` of `0` is falsy in JS). -/
def CacheEntry.isExpired (e : CacheEntry) (now : Nat) : Bool :=
  match e.expiresAt with
  | some x => x != 0 && decide (x < now)
  | none => false

/-- `MemoryStore.get`: lazy expiration check on read.  Returns the result and
the possibly mutated store. -/
def MemoryStore.get (s : MemoryStore) (now : Nat) (key : String) :
    Option StoreValue × MemoryStore :=
  match mapFind s.cache key with
  | none => (none, s)
  | some entry =>
    if entry.isExpired now then
      (none, { s with cache := mapDelete s.cache key,
                      tagIndex := removeFromTagIndex s.tagIndex key entry.value.tags })
    else (some entry.value, s)

/-- `MemoryStore.delete`: remove the key's tag associations (when a cache entry
exists), then delete the key from both the cache map and the rate-limit map. -/
def MemoryStore.delete (s : MemoryStore) (key : String) : MemoryStore :=
  let idx :=
    match mapFind s.cache key with
    | some entry => removeFromTagIndex s.tagIndex key entry.value.tags
    | none => s.tagIndex
  { cache := mapDelete s.cache key,
    rateLimits := mapDelete s.rateLimits key,
    tagIndex := idx,
    maxSize := s.maxSize }

/-- The max-size test of `MemoryStore.set`:
`this.options.maxSize && this.cache.size >= this.options.maxSize`
(a `maxSize` of `0` is falsy in JS). -/
def evictCond (s : MemoryStore) : Bool :=
  match s.maxSize with
  | some m => m != 0 && decide (m ≤ s.cache.length)
  | none => false

/-- The eviction step of `MemoryStore.set`: take the first key of the cache
map and `delete` it (an empty-string first key is falsy, skipping eviction). -/
def MemoryStore.evictOldest (s : MemoryStore) : MemoryStore :=
  match s.cache with
  | [] => s
  | (firstKey, _) :: _ => if firstKey != "" then s.delete firstKey else s

/-- `MemoryStore.set`: evict when over the size limit, drop the old entry's tag
associations on overwrite, install the entry (with `expiresAt = now + ttl` for a
truthy `ttl`), and index the new tags. -/
def MemoryStore.set (s : MemoryStore) (now : Nat) (key : String)
    (value : StoreValue) (ttl : Option Nat) : MemoryStore :=
  let s1 := if evictCond s then s.evictOldest else s
  let idx1 :=
    match mapFind s1.cache key with
    | some oldEntry => removeFromTagIndex s1.tagIndex key oldEntry.value.tags
    | none => s1.tagIndex
  let entry : CacheEntry :=
    match ttl with
    | some t => if t != 0 then ⟨value, some (now + t)⟩ else ⟨value, none⟩
    | none => ⟨value, none⟩
  { cache := mapSet s1.cache key entry,
    rateLimits := s1.rateLimits,
    tagIndex := addTags idx1 key value.tags,
    maxSize := s.maxSize }

/-- `MemoryStore.increment`: fixed-window counter.  A fresh window is installed
when no entry exists or `now > resetAt`; otherwise the count is incremented in
place and `resetAt` is unchanged.  The store always reports `remaining = 0`. -/
def MemoryStore.increment (s : MemoryStore) (now : Nat) (key : String)
    (ttl : Nat) : RateLimitResult × MemoryStore :=
  match mapFind s.rateLimits key with
  | none =>
    (⟨1, now + ttl, 0⟩,
     { s with rateLimits := mapSet s.rateLimits key ⟨1, now + ttl⟩ })
  | some entry =>
    if entry.resetAt < now then
      (⟨1, now + ttl, 0⟩,
       { s with rateLimits := mapSet s.rateLimits key ⟨1, now + ttl⟩ })
    else
      (⟨entry.count + 1, entry.resetAt, 0⟩,
       { s with rateLimits := mapSet s.rateLimits key ⟨entry.count + 1, entry.resetAt⟩ })

/-- `increment` with its default TTL argument (`ttl: number = 60000`). -/
def MemoryStore.incrementDefault (s : MemoryStore) (now : Nat) (key : String) :
    RateLimitResult × MemoryStore :=
  s.increment now key 60000

/-- `MemoryStore.invalidateByTag`: delete every cache entry listed under the
tag directly from the cache map, then drop the tag's index entry. -/
def MemoryStore.invalidateByTag (s : MemoryStore) (tag : String) : MemoryStore :=
  match mapFind s.tagIndex tag with
  | none => s
  | some keys =>
    { cache := keys.foldl mapDelete s.cache,
      rateLimits := s.rateLimits,
      tagIndex := mapDelete s.tagIndex tag,
      maxSize := s.maxSize }

/-- Split a pattern at every `'*'`, keeping empty segments, exactly like the JS
`pattern.split('*')`. -/
def splitOnStar : List Char → List (List Char)
  | [] => [[]]
  | c :: cs =>
    if c = '*' then [] :: splitOnStar cs
    else
      match splitOnStar cs with
      | [] => [[c]]
      | s :: rest => (c :: s) :: rest

/-- The characters the ECMAScript `.` does *not* match when the regex is
compiled without the dotAll flag (as `matchesPattern` does): the line
terminators LINE FEED, CARRIAGE RETURN, LINE SEPARATOR and PARAGRAPH
SEPARATOR. -/
def isLineTerminator (c : Char) : Bool :=
  c = '\n' || c = '\r' || c = '\u2028' || c = '\u2029'

/-- Matching of one `.*seg` group of the compiled glob regex: `findSeg s cont k`
holds when `k` decomposes as `x ++ s ++ k2` with `cont k2` and `x` free of line
terminators (the first disjunct consumes `s` at the current position, the
second skips one character for the `.*` — only when `.` matches it, since the
regex is built without the dotAll flag). -/
def findSeg (s : List Char) (cont : List Char → Bool) : List Char → Bool
  | [] => s.isPrefixOf [] && cont []
  | c :: k2 =>
    (s.isPrefixOf (c :: k2) && cont (List.drop s.length (c :: k2))) ||
    (!isLineTerminator c && findSeg s cont k2)

/-- Matching of the regex `(.*seg₁)(.*seg₂)…(.*segₙ)$` suffix: `tailMatch segs k`
holds when `k` decomposes as `x₁ ++ seg₁ ++ … ++ xₙ ++ segₙ` with the final
segment anchored at the end (each `segᵢ` literal, each `xᵢ` arbitrary but free
of line terminators, which `.` does not match without the dotAll flag). -/
def tailMatch : List (List Char) → List Char → Bool
  | [], k => k.isEmpty
  | s :: rest, k => findSeg s (tailMatch rest) k

/-- `MemoryStore.matchesPattern`: a pattern containing `'*'` is split into
literal segments joined by `.*` and anchored at both ends (`^…$`, no regex
flags, so `.` excludes line terminators); a pattern without `'*'` matches only
the identical key. -/
def matchesPattern (key pat : String) : Bool :=
  if pat.data.contains '*' then
    match splitOnStar pat.data with
    | [] => false
    | s0 :: rest => s0.isPrefixOf key.data && tailMatch rest (List.drop s0.length key.data)
  else key == pat

/-- `MemoryStore.clear`: a falsy pattern (absent or the empty string) clears
all three maps; otherwise matching cache keys are removed through the normal
`delete` path and matching rate-limit keys are removed afterwards. -/
def MemoryStore.clear (s : MemoryStore) (pat : Option String) : MemoryStore :=
  match pat with
  | none => { s with cache := [], rateLimits := [], tagIndex := [] }
  | some p =>
    if p = "" then { s with cache := [], rateLimits := [], tagIndex := [] }
    else
      let keysToDelete := (s.cache.map Prod.fst).filter (fun k => matchesPattern k p)
      let s1 := keysToDelete.foldl MemoryStore.delete s
      { s1 with rateLimits := s1.rateLimits.filter (fun kv => !matchesPattern kv.1 p) }

/-- The per-key removal step of `cleanupExpired`: unwind the tag associations
(when the entry is still present) and delete the key from the cache map only
(the sweep's cache loop never touches the rate-limit map). -/
def sweepDeleteKey (st : MemoryStore) (k : String) : MemoryStore :=
  let idx :=
    match mapFind st.cache k with
    | some entry => removeFromTagIndex st.tagIndex k entry.value.tags
    | none => st.tagIndex
  { cache := mapDelete st.cache k,
    rateLimits := st.rateLimits,
    tagIndex := idx,
    maxSize := st.maxSize }

/-- `MemoryStore.cleanupExpired`: collect the expired cache keys, remove each,
then drop every rate-limit entry whose window has elapsed (`now > resetAt`). -/
def MemoryStore.cleanupExpired (s : MemoryStore) (now : Nat) : MemoryStore :=
  let keysToDelete := ((s.cache.filter (fun kv => kv.2.isExpired now)).map Prod.fst)
  let s1 := keysToDelete.foldl sweepDeleteKey s
  { s1 with rateLimits := s1.rateLimits.filter (fun kv => !decide (kv.2.resetAt < now)) }

/-- The allow/deny outcome of the rate-limit middleware for one request:
`proceed` models calling `next()`, `deny r` models the terminal 429 path (or
the `onLimitReached` handler) carrying the `Retry-After` value in seconds. -/
inductive Decision where
  | proceed
  | deny (retryAfterSeconds : Int)
deriving DecidableEq

/-- The `X-RateLimit-*` response headers set by the middleware. -/
structure RateLimitHeaders where
  limit : Nat
  remaining : Int
  resetAt : Nat
deriving DecidableEq

/-- The externally observable outcome of one middleware invocation. -/
structure MiddlewareResult where
  decision : Decision
  headers : Option RateLimitHeaders
  store : MemoryStore
deriving DecidableEq

/-- `Math.ceil(delta / 1000)` for an integer `delta` (exact JS semantics on
integral millisecond differences). -/
def ceilDiv1000 (delta : Int) : Int :=
  if 0 ≤ delta then Int.ofNat ((delta.toNat + 999) / 1000)
  else - Int.ofNat ((-delta).toNat / 1000)

/-- The decision logic of `createRateLimitMiddleware` after the store call, as
a function of the store call's outcome.  The `Except.error` case models the
`catch` block: rate-limiting errors are logged and the request proceeds with no
rate-limit headers and the store untouched.  On success: compute
`remaining = max(0, limit - count)`, attach the headers, and deny with
`Retry-After = ceil((resetAt - now) / 1000)` exactly when `count > limit`. -/
def rateLimitDecide (limit : Nat) (now : Nat) (s : MemoryStore)
    (incr : Except String (RateLimitResult × MemoryStore)) : MiddlewareResult :=
  match incr with
  | .error _ => ⟨.proceed, none, s⟩
  | .ok (result, s') =>
    let remaining : Int := max 0 ((limit : Int) - (result.count : Int))
    let headers : RateLimitHeaders := ⟨limit, remaining, result.resetAt⟩
    if limit < result.count then
      ⟨.deny (ceilDiv1000 ((result.resetAt : Int) - (now : Int))), some headers, s'⟩
    else
      ⟨.proceed, some headers, s'⟩

/-- `createRateLimitMiddleware` against the in-memory store: increment the
counter for the request's key with the configured window, then decide. -/
def createRateLimitMiddleware (limit : Nat) (windowMs : Nat) (now : Nat)
    (s : MemoryStore) (key : String) : MiddlewareResult :=
  rateLimitDecide limit now s (Except.ok (s.increment now key windowMs))

/-- Run a sequence of `increment` calls for one key at the given instants,
returning the final store (`src/stores/MemoryStore.ts` used repeatedly). -/
def incrementRun (s : MemoryStore) (k : String) (ttl : Nat) (ts : List Nat) :
    MemoryStore :=
  ts.foldl (fun st t => (st.increment t k ttl).2) s

/-! ### Association-list map lemmas -/

theorem mapFind_mapSet_self {α : Type} (m : List (String × α)) (k : String) (v : α) :
    mapFind (mapSet m k v) k = some v := by
  induction m with
  | nil => simp [mapSet, mapFind]
  | cons hd tl ih =>
    obtain ⟨k', v'⟩ := hd
    by_cases h : k' = k
    · simp [mapSet, mapFind, h]
    · simp [mapSet, mapFind, h, ih]

theorem mapFind_mapSet_ne {α : Type} (m : List (String × α)) (k k' : String) (v : α)
    (h : k' ≠ k) : mapFind (mapSet m k v) k' = mapFind m k' := by
  induction m with
  | nil => simp [mapSet, mapFind, Ne.symm h]
  | cons hd tl ih =>
    obtain ⟨k0, v0⟩ := hd
    by_cases h0 : k0 = k
    · subst h0
      simp [mapSet, mapFind, Ne.symm h]
    · simp only [mapSet, if_neg h0, mapFind, ih]

theorem mapFind_mapDelete_ne {α : Type} (m : List (String × α)) (k k' : String)
    (h : k' ≠ k) : mapFind (mapDelete m k) k' = mapFind m k' := by
  induction m with
  | nil => simp [mapDelete]
  | cons hd tl ih =>
    obtain ⟨k0, v0⟩ := hd
    by_cases h0 : k0 = k
    · subst h0
      simp [mapDelete, mapFind, Ne.symm h]
    · simp only [mapDelete, if_neg h0, mapFind, ih]

theorem mapFind_eq_none_iff {α : Type} (m : List (String × α)) (k : String) :
    mapFind m k = none ↔ k ∉ m.map Prod.fst := by
  induction m with
  | nil => simp [mapFind]
  | cons hd tl ih =>
    obtain ⟨k0, v0⟩ := hd
    by_cases h0 : k0 = k
    · simp [mapFind, h0]
    · simp [mapFind, h0, ih, Ne.symm h0]

theorem mapFind_mapDelete_self {α : Type} (m : List (String × α)) (k : String)
    (h : keysNodup m) : mapFind (mapDelete m k) k = none := by
  induction m with
  | nil => simp [mapDelete, mapFind]
  | cons hd tl ih =>
    obtain ⟨k0, v0⟩ := hd
    simp only [keysNodup, List.map_cons, List.nodup_cons] at h
    by_cases h0 : k0 = k
    · subst h0
      simpa [mapDelete, mapFind_eq_none_iff] using h.1
    · simp only [mapDelete, if_neg h0, mapFind, if_neg h0]
      exact ih h.2

theorem mapDelete_sublist {α : Type} (m : List (String × α)) (k : String) :
    (mapDelete m k).Sublist m := by
  induction m with
  | nil => simp [mapDelete]
  | cons hd tl ih =>
    obtain ⟨k0, v0⟩ := hd
    by_cases h0 : k0 = k
    · simp [mapDelete, h0, List.sublist_cons_self]
    · simpa [mapDelete, h0] using ih

theorem keysNodup_mapDelete {α : Type} (m : List (String × α)) (k : String)
    (h : keysNodup m) : keysNodup (mapDelete m k) :=
  List.Nodup.sublist (List.Sublist.map Prod.fst (mapDelete_sublist m k)) h

theorem mapFind_mapDelete_none {α : Type} (m : List (String × α)) (k k' : String)
    (h : mapFind m k = none) : mapFind (mapDelete m k') k = none := by
  rw [mapFind_eq_none_iff] at h ⊢
  intro hmem
  exact h (List.Sublist.subset (List.Sublist.map Prod.fst (mapDelete_sublist m k')) hmem)

theorem mapFind_foldl_mapDelete_none {α : Type} (m : List (String × α))
    (ks : List String) (k : String) (h : mapFind m k = none) :
    mapFind (ks.foldl mapDelete m) k = none := by
  induction ks generalizing m with
  | nil => simpa using h
  | cons k0 ks ih => exact ih _ (mapFind_mapDelete_none m k k0 h)

theorem mapFind_foldl_mapDelete_not_mem {α : Type} (m : List (String × α))
    (ks : List String) (k : String) (h : k ∉ ks) :
    mapFind (ks.foldl mapDelete m) k = mapFind m k := by
  induction ks generalizing m with
  | nil => rfl
  | cons k0 ks ih =>
    simp only [List.mem_cons, not_or] at h
    simp only [List.foldl_cons]
    rw [ih _ h.2, mapFind_mapDelete_ne m k0 k h.1]

theorem keysNodup_foldl_mapDelete {α : Type} (m : List (String × α))
    (ks : List String) (h : keysNodup m) : keysNodup (ks.foldl mapDelete m) := by
  induction ks generalizing m with
  | nil => exact h
  | cons k0 ks ih => exact ih _ (keysNodup_mapDelete m k0 h)

theorem mapFind_foldl_mapDelete_mem {α : Type} (m : List (String × α))
    (ks : List String) (k : String) (hm : keysNodup m) (h : k ∈ ks) :
    mapFind (ks.foldl mapDelete m) k = none := by
  induction ks generalizing m with
  | nil => cases h
  | cons k0 ks ih =>
    simp only [List.foldl_cons]
    rcases List.mem_cons.mp h with h0 | h0
    · subst h0
      exact mapFind_foldl_mapDelete_none _ ks k (mapFind_mapDelete_self m k hm)
    · exact ih _ (keysNodup_mapDelete m k0 hm) h0

theorem keysNodup_filter {α : Type} (m : List (String × α)) (q : String × α → Bool)
    (h : keysNodup m) : keysNodup (m.filter q) :=
  List.Nodup.sublist (List.Sublist.map Prod.fst (List.filter_sublist m)) h

theorem mapFind_filter {α : Type} (m : List (String × α)) (q : String × α → Bool)
    (k : String) (h : keysNodup m) :
    mapFind (m.filter q) k =
      match mapFind m k with
      | some v => if q (k, v) then some v else none
      | none => none := by
  induction m with
  | nil => simp [mapFind]
  | cons hd tl ih =>
    obtain ⟨k0, v0⟩ := hd
    simp only [keysNodup, List.map_cons, List.nodup_cons] at h
    by_cases h0 : k0 = k
    · subst h0
      by_cases hq : q (k0, v0)
      · simp [List.filter_cons, hq, mapFind]
      · have hnone : mapFind tl k0 = none :=
          (mapFind_eq_none_iff tl k0).mpr h.1
        have : mapFind (tl.filter q) k0 = none := by
          rw [mapFind_eq_none_iff]
          intro hmem
          exact (mapFind_eq_none_iff tl k0).mp hnone
            (List.Sublist.subset (List.Sublist.map Prod.fst (List.filter_sublist tl)) hmem)
        simp [List.filter_cons, hq, mapFind, this]
    · by_cases hq : q (k0, v0)
      · simp only [List.filter_cons, hq, cond_true, mapFind, if_neg h0]
        exact ih h.2
      · simp only [List.filter_cons, hq, cond_false, mapFind, if_neg h0]
        exact ih h.2

theorem mapFind_filter_key_true {α : Type} (m : List (String × α))
    (q : String × α → Bool) (k : String) (h : ∀ v, q (k, v) = true) :
    mapFind (m.filter q) k = mapFind m k := by
  induction m with
  | nil => simp
  | cons hd tl ih =>
    obtain ⟨k0, v0⟩ := hd
    by_cases h0 : k0 = k
    · subst h0
      simp [List.filter_cons, h v0, mapFind]
    · by_cases hq : q (k0, v0) <;>
        simp [List.filter_cons, hq, mapFind, h0, ih]

theorem mapFind_filter_key_false {α : Type} (m : List (String × α))
    (q : String × α → Bool) (k : String) (h : ∀ v, q (k, v) = false) :
    mapFind (m.filter q) k = none := by
  induction m with
  | nil => simp [mapFind]
  | cons hd tl ih =>
    obtain ⟨k0, v0⟩ := hd
    by_cases h0 : k0 = k
    · subst h0
      simp [List.filter_cons, h v0, ih]
    · by_cases hq : q (k0, v0) <;>
        simp [List.filter_cons, hq, mapFind, h0, ih]

theorem mem_map_fst_filter_iff {α : Type} (m : List (String × α))
    (q : String × α → Bool) (k : String) (h : keysNodup m) :
    k ∈ (m.filter q).map Prod.fst ↔ ∃ v, mapFind m k = some v ∧ q (k, v) = true := by
  have hf := mapFind_filter m q k h
  constructor
  · intro hmem
    rcases Option.ne_none_iff_exists'.mp ((not_iff_not.mpr (mapFind_eq_none_iff (m.filter q) k)).mpr (by simpa using hmem)) with ⟨v, hv⟩
    rw [hf] at hv
    cases hfind : mapFind m k with
    | none => rw [hfind] at hv; cases hv
    | some w =>
      rw [hfind] at hv
      by_cases hq : q (k, w)
      · exact ⟨w, rfl, hq⟩
      · simp [hq] at hv
  · rintro ⟨v, hv, hq⟩
    have : mapFind (m.filter q) k = some v := by rw [hf, hv]; simp [hq]
    have hne : mapFind (m.filter q) k ≠ none := by simp [this]
    simpa using (not_iff_not.mpr (mapFind_eq_none_iff (m.filter q) k)).mp hne

/-! ### Store-level component lemmas -/

theorem delete_cache (s : MemoryStore) (k : String) :
    (s.delete k).cache = mapDelete s.cache k := rfl

theorem delete_rateLimits (s : MemoryStore) (k : String) :
    (s.delete k).rateLimits = mapDelete s.rateLimits k := rfl

theorem delete_maxSize (s : MemoryStore) (k : String) :
    (s.delete k).maxSize = s.maxSize := rfl

theorem set_cache (s : MemoryStore) (now : Nat) (k : String) (v : StoreValue)
    (ttl : Option Nat) :
    (s.set now k v ttl).cache =
      mapSet (if evictCond s then s.evictOldest else s).cache k
        (match ttl with
         | some t => if t != 0 then ⟨v, some (now + t)⟩ else ⟨v, none⟩
         | none => ⟨v, none⟩) := rfl

theorem set_rateLimits (s : MemoryStore) (now : Nat) (k : String) (v : StoreValue)
    (ttl : Option Nat) :
    (s.set now k v ttl).rateLimits =
      (if evictCond s then s.evictOldest else s).rateLimits := rfl

theorem sweepDeleteKey_cache (s : MemoryStore) (k : String) :
    (sweepDeleteKey s k).cache = mapDelete s.cache k := rfl

theorem sweepDeleteKey_rateLimits (s : MemoryStore) (k : String) :
    (sweepDeleteKey s k).rateLimits = s.rateLimits := rfl

theorem foldl_sweepDeleteKey_cache (ks : List String) :
    ∀ s : MemoryStore, (ks.foldl sweepDeleteKey s).cache = ks.foldl mapDelete s.cache := by
  induction ks with
  | nil => intro s; rfl
  | cons k0 ks ih =>
    intro s
    simp only [List.foldl_cons, ih, sweepDeleteKey_cache]

theorem foldl_sweepDeleteKey_rateLimits (ks : List String) :
    ∀ s : MemoryStore, (ks.foldl sweepDeleteKey s).rateLimits = s.rateLimits := by
  induction ks with
  | nil => intro s; rfl
  | cons k0 ks ih =>
    intro s
    simp only [List.foldl_cons, ih, sweepDeleteKey_rateLimits]

theorem foldl_delete_cache (ks : List String) :
    ∀ s : MemoryStore, (ks.foldl MemoryStore.delete s).cache = ks.foldl mapDelete s.cache := by
  induction ks with
  | nil => intro s; rfl
  | cons k0 ks ih =>
    intro s
    simp only [List.foldl_cons, ih, delete_cache]

theorem foldl_delete_rateLimits (ks : List String) :
    ∀ s : MemoryStore, (ks.foldl MemoryStore.delete s).rateLimits =
      ks.foldl mapDelete s.rateLimits := by
  induction ks with
  | nil => intro s; rfl
  | cons k0 ks ih =>
    intro s
    simp only [List.foldl_cons, ih, delete_rateLimits]

theorem cleanupExpired_cache (s : MemoryStore) (now : Nat) :
    (s.cleanupExpired now).cache =
      ((s.cache.filter (fun kv => kv.2.isExpired now)).map Prod.fst).foldl
        mapDelete s.cache := by
  simp only [MemoryStore.cleanupExpired, foldl_sweepDeleteKey_cache]

theorem cleanupExpired_rateLimits (s : MemoryStore) (now : Nat) :
    (s.cleanupExpired now).rateLimits =
      s.rateLimits.filter (fun kv => !decide (kv.2.resetAt < now)) := by
  simp only [MemoryStore.cleanupExpired, foldl_sweepDeleteKey_rateLimits]

/-- The result component of `get`, as a function of the cache lookup. -/
theorem get_fst_eq (s : MemoryStore) (now : Nat) (k : String) :
    (s.get now k).1 =
      match mapFind s.cache k with
      | none => none
      | some e => if e.isExpired now then none else some e.value := by
  unfold MemoryStore.get
  cases mapFind s.cache k with
  | none => rfl
  | some e =>
    by_cases he : e.isExpired now <;> simp [he]

/-- The result component of `increment`, as a function of the counter lookup. -/
theorem increment_fst_eq (s : MemoryStore) (now : Nat) (k : String) (ttl : Nat) :
    (s.increment now k ttl).1 =
      match mapFind s.rateLimits k with
      | none => ⟨1, now + ttl, 0⟩
      | some e =>
        if e.resetAt < now then ⟨1, now + ttl, 0⟩ else ⟨e.count + 1, e.resetAt, 0⟩ := by
  unfold MemoryStore.increment
  cases mapFind s.rateLimits k with
  | none => rfl
  | some e =>
    by_cases he : e.resetAt < now <;> simp [he]

/-- Shared helper: a `set` without TTL followed by a `get` of the same key at
any instant yields the stored value (the entry carries no expiration). -/
theorem get_set_none_fst (s : MemoryStore) (now now' : Nat) (k : String)
    (v : StoreValue) : ((s.set now k v none).get now' k).1 = some v := by
  rw [get_fst_eq, set_cache, mapFind_mapSet_self]
  rfl

/-! ### Claim C9: the periodic sweep is observationally neutral -/

/-- C9.  Sweep is observationally neutral: for every well-formed store state,
every instant `now` and every key, running `cleanupExpired` (which physically
removes expired cache entries and elapsed rate-limit entries) and then calling
`get` or `increment` at the same instant returns the same result as calling the
same operation on the un-swept state: the sweep's removal predicates coincide
with the lazy checks `get` and `increment` already perform. -/
theorem c9_sweep_neutral (s : MemoryStore) (now : Nat) (k : String) (ttl : Nat)
    (hwf : s.Wf) :
    ((s.cleanupExpired now).get now k).1 = (s.get now k).1 ∧
    ((s.cleanupExpired now).increment now k ttl).1 = (s.increment now k ttl).1 := by
  obtain ⟨hc, hr, -⟩ := hwf
  constructor
  · rw [get_fst_eq, get_fst_eq, cleanupExpired_cache]
    cases hfind : mapFind s.cache k with
    | none =>
      rw [mapFind_foldl_mapDelete_none _ _ _ hfind]
    | some e =>
      by_cases he : e.isExpired now
      · have hmem : k ∈ ((s.cache.filter (fun kv => kv.2.isExpired now)).map Prod.fst) :=
          (mem_map_fst_filter_iff _ _ _ hc).mpr ⟨e, hfind, he⟩
        rw [mapFind_foldl_mapDelete_mem _ _ _ hc hmem]
        simp [he]
      · have hnmem : k ∉ ((s.cache.filter (fun kv => kv.2.isExpired now)).map Prod.fst) := by
          intro hmem
          rcases (mem_map_fst_filter_iff _ _ _ hc).mp hmem with ⟨v, hv, hq⟩
          rw [hfind] at hv
          cases hv
          exact he hq
        rw [mapFind_foldl_mapDelete_not_mem _ _ _ hnmem, hfind]
  · rw [increment_fst_eq, increment_fst_eq, cleanupExpired_rateLimits,
      mapFind_filter _ _ _ hr]
    cases hfind : mapFind s.rateLimits k with
    | none => rfl
    | some e =>
      by_cases he : e.resetAt < now
      · simp [he]
      · simp [he]

/-! ### Claim C2: fixed-window counting -/

/-- Helper for C2: `increment` calls within a live window accumulate the count
and leave `resetAt` unchanged in the stored entry. -/
theorem incrementRun_find (k : String) (ttl : Nat) (ts : List Nat) :
    ∀ (s : MemoryStore) (c r : Nat),
      mapFind s.rateLimits k = some ⟨c, r⟩ → (∀ t ∈ ts, t ≤ r) →
      mapFind ((incrementRun s k ttl ts).rateLimits) k = some ⟨c + ts.length, r⟩ := by
  induction ts with
  | nil =>
    intro s c r h _
    simpa [incrementRun] using h
  | cons t ts ih =>
    intro s c r h hall
    have ht : ¬ r < t := Nat.not_lt.mpr (hall t (by simp))
    have hstep : (s.increment t k ttl).2.rateLimits = mapSet s.rateLimits k ⟨c + 1, r⟩ := by
      simp [MemoryStore.increment, h, ht]
    have hrun : incrementRun s k ttl (t :: ts) = incrementRun (s.increment t k ttl).2 k ttl ts := rfl
    rw [hrun]
    have hfind' : mapFind ((s.increment t k ttl).2.rateLimits) k = some ⟨c + 1, r⟩ := by
      rw [hstep, mapFind_mapSet_self]
    have := ih (s.increment t k ttl).2 (c + 1) r hfind' (fun t' ht' => hall t' (by simp [ht']))
    rw [this]
    simp only [List.length_cons]
    congr 2
    omega

/-- Helper for C2: the result of an `increment` that lands inside a live
window. -/
theorem increment_fst_within (s : MemoryStore) (now : Nat) (k : String)
    (ttl : Nat) (e : RateLimitEntry) (h : mapFind s.rateLimits k = some e)
    (he : ¬ e.resetAt < now) :
    (s.increment now k ttl).1 = ⟨e.count + 1, e.resetAt, 0⟩ := by
  rw [increment_fst_eq, h]
  simp [he]

/-- C2.  Fixed-window counting: for every key and window `ttl` (`60000` ms when
unspecified, embedded as `incrementDefault`), if no rate-limit entry exists, or
the window has elapsed (`now > resetAt`), `increment` installs a fresh entry and
returns `count = 1` with `resetAt = now + ttl`; otherwise it returns the count
incremented by one with `resetAt` unchanged; hence `n` increments within one
window return `count = n` on the `n`-th call (final conjunct, with
`n = ts.length + 2`). -/
theorem c2_increment :
    (∀ (s : MemoryStore) (now : Nat) (k : String) (ttl : Nat),
        mapFind s.rateLimits k = none →
        (s.increment now k ttl).1 = ⟨1, now + ttl, 0⟩) ∧
    (∀ (s : MemoryStore) (now : Nat) (k : String) (ttl : Nat) (e : RateLimitEntry),
        mapFind s.rateLimits k = some e → e.resetAt < now →
        (s.increment now k ttl).1 = ⟨1, now + ttl, 0⟩) ∧
    (∀ (s : MemoryStore) (now : Nat) (k : String) (ttl : Nat) (e : RateLimitEntry),
        mapFind s.rateLimits k = some e → now ≤ e.resetAt →
        (s.increment now k ttl).1 = ⟨e.count + 1, e.resetAt, 0⟩) ∧
    (∀ (s : MemoryStore) (now : Nat) (k : String),
        s.incrementDefault now k = s.increment now k 60000) ∧
    (∀ (s : MemoryStore) (k : String) (ttl t1 tn : Nat) (ts : List Nat),
        mapFind s.rateLimits k = none →
        (∀ t ∈ ts, t ≤ t1 + ttl) → tn ≤ t1 + ttl →
        ((incrementRun s k ttl (t1 :: ts)).increment tn k ttl).1 =
          ⟨ts.length + 2, t1 + ttl, 0⟩) := by
  refine ⟨?_, ?_, ?_, ?_, ?_⟩
  · intro s now k ttl h
    rw [increment_fst_eq, h]
  · intro s now k ttl e h he
    rw [increment_fst_eq, h]
    simp [he]
  · intro s now k ttl e h he
    rw [increment_fst_eq, h]
    simp [Nat.not_lt.mpr he]
  · intro s now k
    rfl
  · intro s k ttl t1 tn ts hnone hall htn
    have hrun : incrementRun s k ttl (t1 :: ts) = incrementRun (s.increment t1 k ttl).2 k ttl ts := rfl
    have hfirst : (s.increment t1 k ttl).2.rateLimits = mapSet s.rateLimits k ⟨1, t1 + ttl⟩ := by
      simp [MemoryStore.increment, hnone]
    have hfind1 : mapFind ((s.increment t1 k ttl).2.rateLimits) k = some ⟨1, t1 + ttl⟩ := by
      rw [hfirst, mapFind_mapSet_self]
    have hfind2 := incrementRun_find k ttl ts (s.increment t1 k ttl).2 1 (t1 + ttl) hfind1 hall
    have hnlt : ¬ (t1 + ttl) < tn := Nat.not_lt.mpr htn
    have hres := increment_fst_within _ tn k ttl ⟨1 + ts.length, t1 + ttl⟩ hfind2
      (by simpa using hnlt)
    rw [hrun, hres]
    simp only [RateLimitResult.mk.injEq]
    refine ⟨by omega, trivial, trivial⟩

/-- Witness for C2: three increments of key `"k"` with window `10` at instants
`0, 1, 2`, then a fourth at instant `5`, return `count = 4` with the first
call's `resetAt = 10`. -/
theorem c2_witness :
    ((incrementRun (MemoryStore.empty none) "k" 10 [0, 1, 2]).increment 5 "k" 10).1 =
      ⟨4, 10, 0⟩ :=
  c2_increment.2.2.2.2 (MemoryStore.empty none) "k" 10 0 5 [1, 2] (by decide)
    (by decide) (by decide)

/-! ### Claim C3: set/get postcondition and TTL boundary -/

/-- C3 counterexample.  The claim says `get` returns absent for any elapsed
time `≥ t`, but the code's expiry check is strict (`Date.now() > expiresAt`):
after `set("k", v, 5)` at instant `0`, a `get` at instant `5` (elapsed time
`5 ≥ 5`) still returns the value instead of absent. -/
theorem c3_counterexample :
    5 ≤ 5 ∧
    (((MemoryStore.empty none).set 0 "k" ⟨1, []⟩ (some 5)).get 5 "k").1 =
      some ⟨1, []⟩ := by
  decide

/-- C3 as amended.  `set(k, v)` with no TTL followed by `get(k)` returns `v`
exactly; after `set(k, v, t)` with TTL `t > 0`, `get(k)` returns `v` for any
elapsed time `≤ t` and returns absent for any elapsed time `> t` (the expiry
comparison is strict, so at elapsed time exactly `t` the value is still
returned). -/
theorem c3_ttl_boundary :
    (∀ (s : MemoryStore) (now now' : Nat) (k : String) (v : StoreValue),
        ((s.set now k v none).get now' k).1 = some v) ∧
    (∀ (s : MemoryStore) (now : Nat) (k : String) (v : StoreValue) (t d : Nat),
        0 < t →
        (d ≤ t → ((s.set now k v (some t)).get (now + d) k).1 = some v) ∧
        (t < d → ((s.set now k v (some t)).get (now + d) k).1 = none)) := by
  constructor
  · exact get_set_none_fst
  · intro s now k v t d ht
    have htne : (t != 0) = true := by simpa using Nat.pos_iff_ne_zero.mp ht
    have hfind : mapFind (s.set now k v (some t)).cache k = some ⟨v, some (now + t)⟩ := by
      rw [set_cache]
      simp only [htne, if_true]
      exact mapFind_mapSet_self _ _ _
    constructor
    · intro hd
      rw [get_fst_eq, hfind]
      have : (CacheEntry.isExpired ⟨v, some (now + t)⟩ (now + d)) = false := by
        simp [CacheEntry.isExpired]
        omega
      simp [this]
    · intro hd
      rw [get_fst_eq, hfind]
      have : (CacheEntry.isExpired ⟨v, some (now + t)⟩ (now + d)) = true := by
        simp [CacheEntry.isExpired]
        omega
      simp [this]

/-- Witness for C3: a no-TTL round trip and an expiry strictly past the TTL. -/
theorem c3_witness :
    (((MemoryStore.empty none).set 0 "a" ⟨2, []⟩ none).get 7 "a").1 = some ⟨2, []⟩ ∧
    (((MemoryStore.empty none).set 0 "a" ⟨2, []⟩ (some 5)).get (0 + 6) "a").1 = none :=
  ⟨c3_ttl_boundary.1 (MemoryStore.empty none) 0 7 "a" ⟨2, []⟩,
   (c3_ttl_boundary.2 (MemoryStore.empty none) 0 "a" ⟨2, []⟩ 5 6 (by decide)).2 (by decide)⟩

/-! ### Claim C10: explicit TTL of zero means no expiration -/

/-- C10.  A TTL of `0` is falsy in the JS conditional `ttl ? {…, expiresAt} :
{…}`, so `set(k, v, 0)` installs an entry with no expiration instant — the
resulting store is identical to the one produced by omitting the TTL, and
`get(k)` returns `v` at every later instant. -/
theorem c10_zero_ttl :
    (∀ (s : MemoryStore) (now : Nat) (k : String) (v : StoreValue),
        s.set now k v (some 0) = s.set now k v none) ∧
    (∀ (s : MemoryStore) (now now' : Nat) (k : String) (v : StoreValue),
        ((s.set now k v (some 0)).get now' k).1 = some v) := by
  have hset : ∀ (s : MemoryStore) (now : Nat) (k : String) (v : StoreValue),
      s.set now k v (some 0) = s.set now k v none := by
    intro s now k v
    rfl
  exact ⟨hset, fun s now now' k v => by rw [hset]; exact get_set_none_fst s now now' k v⟩

/-! ### Claim C1: the tag-index invariant (violated by `invalidateByTag`) -/

/-- The store after `set("b", …, tags ["x","y"])` and `invalidateByTag("x")`. -/
def storeAfterInvalidateX : MemoryStore :=
  ((MemoryStore.empty none).set 0 "b" ⟨1, ["x", "y"]⟩ none).invalidateByTag "x"

/-- `storeAfterInvalidateX` after re-storing an untagged entry under `"b"`. -/
def storeAfterResetB : MemoryStore :=
  storeAfterInvalidateX.set 1 "b" ⟨2, []⟩ none

/-- C1.  The claim's invariant fails: `MemoryStore.invalidateByTag` removes
each listed key with `this.cache.delete(key)` directly, never pruning the
entry's *other* tag associations.  After `set("b", …, tags ["x", "y"])` and
`invalidateByTag("x")`, key `"b"` is gone from the cache yet still listed under
tag `"y"` in the index — the index references a key whose `CacheEntry` has been
removed.  Consequently a fresh untagged entry later stored under `"b"` is
wrongly destroyed by `invalidateByTag("y")`. -/
theorem c1_tag_index_bug :
    mapFind storeAfterInvalidateX.cache "b" = none ∧
    mapFind storeAfterInvalidateX.tagIndex "y" = some ["b"] ∧
    mapFind storeAfterResetB.cache "b" = some ⟨⟨2, []⟩, none⟩ ∧
    mapFind (storeAfterResetB.invalidateByTag "y").cache "b" = none := by
  decide

/-! ### Claim C4: size-bound eviction -/

/-- The two-entry store at capacity used for the C4 scenario. -/
def storeK12 : MemoryStore :=
  ((MemoryStore.empty (some 2)).set 0 "k1" ⟨1, []⟩ none).set 0 "k2" ⟨2, []⟩ none

/-- C4 counterexample.  The claim says eviction happens only when admitting the
new entry would make the live-entry count exceed `N`; but the code tests
`cache.size >= maxSize` before looking at the key, so overwriting `"k2"` in a
full store of capacity `2` (the count would stay at `2`) still evicts `"k1"`. -/
theorem c4_counterexample :
    storeK12.cache.length = 2 ∧
    mapFind storeK12.cache "k2" ≠ none ∧
    mapFind storeK12.cache "k1" ≠ none ∧
    mapFind ((storeK12.set 0 "k2" ⟨3, []⟩ none).cache) "k1" = none := by
  decide

/-- C4 as amended.  A `set` call evicts at most one victim, and any victim is
the single oldest-inserted entry (the head of the cache map): a key other than
the one being set that disappears from the cache must be the first key, and
then only with the size test `maxSize ≠ 0 ∧ size ≥ maxSize` true at call time.
Eviction triggers whenever the store already holds at least `N` entries —
including when the `set` overwrites an existing key, in which case the count
would not have grown (third conjunct).  With `N = 2`, inserting `k1, k2, k3`
leaves exactly `{k2, k3}` (second conjunct). -/
theorem c4_eviction :
    (∀ (s : MemoryStore) (now : Nat) (k : String) (v : StoreValue)
        (ttl : Option Nat) (k' : String), k' ≠ k →
        mapFind (s.set now k v ttl).cache k' = none →
        mapFind s.cache k' ≠ none →
        (s.cache.map Prod.fst).head? = some k' ∧ evictCond s = true) ∧
    ((storeK12.set 0 "k3" ⟨3, []⟩ none).cache.map Prod.fst = ["k2", "k3"]) ∧
    (mapFind ((storeK12.set 0 "k2" ⟨3, []⟩ none).cache) "k1" = none ∧
      storeK12.cache.length = 2) := by
  refine ⟨?_, by decide, by decide⟩
  intro s now k v ttl k' hne hafter hbefore
  rw [set_cache, mapFind_mapSet_ne _ _ _ _ hne] at hafter
  by_cases hev : evictCond s
  · rw [if_pos hev] at hafter
    refine ⟨?_, hev⟩
    cases hc : s.cache with
    | nil =>
      exfalso
      apply hbefore
      rw [mapFind_eq_none_iff, hc]
      simp
    | cons hd rest =>
      obtain ⟨fk, e0⟩ := hd
      rw [hc] at hbefore
      by_cases hfk : (fk != "") = true
      · have hcache : s.evictOldest.cache = mapDelete ((fk, e0) :: rest) fk := by
          unfold MemoryStore.evictOldest
          rw [hc]
          simp only [hfk, if_true, delete_cache]
          rw [hc]
        rw [hcache] at hafter
        by_cases hk' : k' = fk
        · simp [hk']
        · rw [mapFind_mapDelete_ne _ _ _ hk'] at hafter
          exact absurd hafter hbefore
      · have hfk' : fk = "" := by simpa using hfk
        have hsame : s.evictOldest = s := by
          unfold MemoryStore.evictOldest
          rw [hc, hfk']
          simp
        rw [hsame, hc] at hafter
        exact absurd hafter hbefore
  · rw [if_neg hev] at hafter
    exact absurd hafter hbefore

/-- Witness for C4: evicting `"k1"` out of the full two-entry store identifies
it as the oldest-inserted entry with the size test true. -/
theorem c4_witness :
    (storeK12.cache.map Prod.fst).head? = some "k1" ∧ evictCond storeK12 = true :=
  c4_eviction.1 storeK12 0 "k3" ⟨3, []⟩ none "k1" (by decide) (by decide) (by decide)

/-! ### Claim C5: the frame of eviction on rate-limit counters -/

/-- The capacity-one store holding a cache entry and a rate-limit counter under
the same key `"a"`, used for the C5 counterexample and witness. -/
def storeC5 : MemoryStore :=
  (((MemoryStore.empty (some 1)).increment 0 "a" 100).2).set 0 "a" ⟨1, []⟩ none

/-- C5 counterexample.  The claim says a `set` that evicts the cache entry for
a key leaves the rate-limit counter map unchanged; but eviction goes through
`this.delete(firstKey)`, which also deletes the rate-limit counter stored under
that key: after evicting `"a"`, its counter `{count 1, resetAt 100}` is gone. -/
theorem c5_counterexample :
    mapFind storeC5.rateLimits "a" = some ⟨1, 100⟩ ∧
    mapFind ((storeC5.set 1 "b" ⟨2, []⟩ none).rateLimits) "a" = none := by
  decide

/-- C5 as amended.  Size-bound eviction never selects a rate-limit counter as
its victim and leaves the counter stored under every key other than the evicted
cache key unchanged (first conjunct); a `set` with the size test false leaves
the counter map entirely unchanged (second conjunct); but because eviction uses
the store's `delete` path, the counter stored under the same key as the evicted
cache entry is removed along with it (third conjunct). -/
theorem c5_eviction_frame :
    (∀ (s : MemoryStore) (now : Nat) (k : String) (v : StoreValue)
        (ttl : Option Nat) (k' : String),
        (s.cache.map Prod.fst).head? ≠ some k' →
        mapFind (s.set now k v ttl).rateLimits k' = mapFind s.rateLimits k') ∧
    (∀ (s : MemoryStore) (now : Nat) (k : String) (v : StoreValue)
        (ttl : Option Nat), evictCond s = false →
        (s.set now k v ttl).rateLimits = s.rateLimits) ∧
    (∀ (s : MemoryStore) (now : Nat) (k : String) (v : StoreValue)
        (ttl : Option Nat) (fk : String) (e : CacheEntry)
        (rest : List (String × CacheEntry)),
        keysNodup s.rateLimits → s.cache = (fk, e) :: rest → fk ≠ "" →
        evictCond s = true →
        mapFind (s.set now k v ttl).rateLimits fk = none) := by
  refine ⟨?_, ?_, ?_⟩
  · intro s now k v ttl k' hhead
    rw [set_rateLimits]
    by_cases hev : evictCond s
    · rw [if_pos hev]
      cases hc : s.cache with
      | nil =>
        unfold MemoryStore.evictOldest
        rw [hc]
      | cons hd rest =>
        obtain ⟨fk, e0⟩ := hd
        have hk' : k' ≠ fk := by
          intro h
          apply hhead
          rw [hc, h]
          simp
        by_cases hfk : (fk != "") = true
        · have hcache : s.evictOldest.rateLimits = mapDelete s.rateLimits fk := by
            unfold MemoryStore.evictOldest
            rw [hc]
            simp only [hfk, if_true, delete_rateLimits]
          rw [hcache]
          exact mapFind_mapDelete_ne _ _ _ hk'
        · have hfk' : fk = "" := by simpa using hfk
          have hsame : s.evictOldest = s := by
            unfold MemoryStore.evictOldest
            rw [hc, hfk']
            simp
          rw [hsame]
    · rw [if_neg hev]
  · intro s now k v ttl hev
    rw [set_rateLimits, if_neg]
    simp [hev]
  · intro s now k v ttl fk e rest hnodup hc hfk hev
    rw [set_rateLimits, if_pos hev]
    have hcache : s.evictOldest.rateLimits = mapDelete s.rateLimits fk := by
      unfold MemoryStore.evictOldest
      rw [hc]
      have : (fk != "") = true := by simpa using hfk
      simp only [this, if_true, delete_rateLimits]
    rw [hcache]
    exact mapFind_mapDelete_self _ _ hnodup

/-- Witness for C5: evicting `"a"` from the capacity-one store removes the
counter stored under `"a"` itself. -/
theorem c5_witness :
    mapFind ((storeC5.set 1 "b" ⟨2, []⟩ none).rateLimits) "a" = none :=
  c5_eviction_frame.2.2 storeC5 1 "b" ⟨2, []⟩ none "a" ⟨⟨1, []⟩, none⟩ []
    (by decide) (by decide) (by decide) (by decide)

/-! ### Claims C6 and C7: the rate-limit policy decision -/

/-- Helper for C6: a strictly positive millisecond difference yields a
`Retry-After` of at least one second under `Math.ceil`. -/
theorem ceilDiv1000_pos (a b : Nat) (h : b < a) :
    1 ≤ ceilDiv1000 ((a : Int) - (b : Int)) := by
  have h0 : (0 : Int) ≤ (a : Int) - (b : Int) := by omega
  rw [ceilDiv1000, if_pos h0]
  have h1 : 1 ≤ ((a : Int) - (b : Int)).toNat := by omega
  have h2 : 1 ≤ (((a : Int) - (b : Int)).toNat + 999) / 1000 :=
    (Nat.le_div_iff_mul_le (by norm_num)).mpr (by omega)
  simpa using Int.ofNat_le.mpr h2

/-- C6.  Rate-limit decision: on every request (modelled as one invocation of
`createRateLimitMiddleware` against the in-memory store) the policy computes
`remaining = max(0, limit - count)` and attaches it, the limit and the window
reset instant as response metadata (first conjunct); when `count > limit` it
denies with `retryAfterSeconds = ceil((resetAt - now)/1000)` — the `deny`
decision is terminal, `proceed` is the only decision that invokes the next
stage (second and third conjuncts) — and a denial strictly inside the window
carries `retryAfterSeconds ≥ 1 > 0` (fourth conjunct).  For
`{limit: 3, window: 60000}` on key `"A"`, calls at instants `0, 1, 2` proceed
with `count 1, 2, 3` and `remaining 2, 1, 0`, and the fourth call at instant
`3` (within the window) is denied with `retryAfterSeconds = 60 > 0` (final
conjunct). -/
theorem c6_rate_limit_decision :
    (∀ (limit windowMs now : Nat) (s : MemoryStore) (key : String),
        (createRateLimitMiddleware limit windowMs now s key).headers =
          some ⟨limit,
                max 0 ((limit : Int) - ((s.increment now key windowMs).1.count : Int)),
                (s.increment now key windowMs).1.resetAt⟩) ∧
    (∀ (limit windowMs now : Nat) (s : MemoryStore) (key : String),
        limit < (s.increment now key windowMs).1.count →
        (createRateLimitMiddleware limit windowMs now s key).decision =
          Decision.deny (ceilDiv1000
            (((s.increment now key windowMs).1.resetAt : Int) - (now : Int)))) ∧
    (∀ (limit windowMs now : Nat) (s : MemoryStore) (key : String),
        ¬ limit < (s.increment now key windowMs).1.count →
        (createRateLimitMiddleware limit windowMs now s key).decision =
          Decision.proceed) ∧
    (∀ (limit windowMs now : Nat) (s : MemoryStore) (key : String),
        limit < (s.increment now key windowMs).1.count →
        now < (s.increment now key windowMs).1.resetAt →
        (createRateLimitMiddleware limit windowMs now s key).decision =
          Decision.deny (ceilDiv1000
            (((s.increment now key windowMs).1.resetAt : Int) - (now : Int))) ∧
        1 ≤ ceilDiv1000
          (((s.increment now key windowMs).1.resetAt : Int) - (now : Int))) ∧
    ((createRateLimitMiddleware 3 60000 0 (MemoryStore.empty none) "A").decision =
        Decision.proceed ∧
      (createRateLimitMiddleware 3 60000 0 (MemoryStore.empty none) "A").headers =
        some ⟨3, 2, 60000⟩ ∧
      (createRateLimitMiddleware 3 60000 1
          (createRateLimitMiddleware 3 60000 0 (MemoryStore.empty none) "A").store
          "A").decision = Decision.proceed ∧
      (createRateLimitMiddleware 3 60000 1
          (createRateLimitMiddleware 3 60000 0 (MemoryStore.empty none) "A").store
          "A").headers = some ⟨3, 1, 60000⟩ ∧
      (createRateLimitMiddleware 3 60000 2
          (createRateLimitMiddleware 3 60000 1
            (createRateLimitMiddleware 3 60000 0 (MemoryStore.empty none) "A").store
            "A").store "A").decision = Decision.proceed ∧
      (createRateLimitMiddleware 3 60000 2
          (createRateLimitMiddleware 3 60000 1
            (createRateLimitMiddleware 3 60000 0 (MemoryStore.empty none) "A").store
            "A").store "A").headers = some ⟨3, 0, 60000⟩ ∧
      (createRateLimitMiddleware 3 60000 3
          (createRateLimitMiddleware 3 60000 2
            (createRateLimitMiddleware 3 60000 1
              (createRateLimitMiddleware 3 60000 0 (MemoryStore.empty none) "A").store
              "A").store "A").store "A").decision = Decision.deny 60 ∧
      (1 : Int) ≤ 60) := by
  have hheaders : ∀ (limit windowMs now : Nat) (s : MemoryStore) (key : String),
      (createRateLimitMiddleware limit windowMs now s key).headers =
        some ⟨limit,
              max 0 ((limit : Int) - ((s.increment now key windowMs).1.count : Int)),
              (s.increment now key windowMs).1.resetAt⟩ := by
    intro limit windowMs now s key
    unfold createRateLimitMiddleware rateLimitDecide
    by_cases h : limit < (s.increment now key windowMs).1.count <;> simp [h]
  have hdeny : ∀ (limit windowMs now : Nat) (s : MemoryStore) (key : String),
      limit < (s.increment now key windowMs).1.count →
      (createRateLimitMiddleware limit windowMs now s key).decision =
        Decision.deny (ceilDiv1000
          (((s.increment now key windowMs).1.resetAt : Int) - (now : Int))) := by
    intro limit windowMs now s key h
    unfold createRateLimitMiddleware rateLimitDecide
    simp [h]
  have hproceed : ∀ (limit windowMs now : Nat) (s : MemoryStore) (key : String),
      ¬ limit < (s.increment now key windowMs).1.count →
      (createRateLimitMiddleware limit windowMs now s key).decision =
        Decision.proceed := by
    intro limit windowMs now s key h
    unfold createRateLimitMiddleware rateLimitDecide
    simp [h]
  refine ⟨hheaders, hdeny, hproceed, ?_, ?_⟩
  · intro limit windowMs now s key h hw
    exact ⟨hdeny limit windowMs now s key h, ceilDiv1000_pos _ _ hw⟩
  · decide

/-- Witness for C6: with `limit 0`, the very first call is over the limit and
is denied with the computed `Retry-After`. -/
theorem c6_witness :
    (createRateLimitMiddleware 0 1000 0 (MemoryStore.empty none) "A").decision =
      Decision.deny (ceilDiv1000
        ((((MemoryStore.empty none).increment 0 "A" 1000).1.resetAt : Int) -
          ((0 : Nat) : Int))) :=
  c6_rate_limit_decision.2.1 0 1000 0 (MemoryStore.empty none) "A" (by decide)

/-- C7.  Fail-open error handling: the middleware's `try/catch` turns any error
raised by the underlying store's `increment` (modelled as an `Except.error`
outcome of the store call) into an invocation of the next pipeline stage —
the decision is `proceed`, no rate-limit headers are set, no denial or other
user-visible error is produced, and the store is left untouched. -/
theorem c7_fail_open :
    ∀ (limit now : Nat) (s : MemoryStore) (err : String),
      rateLimitDecide limit now s (Except.error err) =
        ⟨Decision.proceed, none, s⟩ := by
  intro limit now s err
  rfl

/-! ### Claim C8: clear semantics and glob matching -/

/-- C8 counterexample.  The claim says `clear(p)` removes exactly the entries
whose key matches `p`, and a pattern without `'*'` matches only the identical
key; but `clear` begins with the JS falsy test `if (!pattern)`, so the empty
string pattern is treated like no pattern at all: `clear("")` removes the entry
under `"a"` even though `"a"` does not match the pattern `""`. -/
theorem c8_counterexample :
    matchesPattern "a" "" = false ∧
    mapFind ((((MemoryStore.empty none).set 0 "a" ⟨1, []⟩ none).clear
      (some "")).cache) "a" = none := by
  decide

/-- The three-key store of the C8 scenario. -/
def storeUsers : MemoryStore :=
  (((MemoryStore.empty none).set 0 "user:1" ⟨1, []⟩ none).set 0 "user:2"
    ⟨2, []⟩ none).set 0 "post:1" ⟨3, []⟩ none

/-- C8 as amended.  `clear()` with no pattern removes all cache entries, all
rate-limit entries and the entire tag index (first conjunct); `clear(p)` with a
*nonempty* pattern removes exactly the cache and rate-limit entries whose key
matches `p` (second conjunct), where a pattern without `'*'` matches only the
identical key (third conjunct) and `'*'` divides the pattern into literal
segments that must appear in order, the gaps matched by `.*` of a flagless
regex, so a `'*'` never matches across a line terminator; the empty-string
pattern is falsy in JS and behaves like `clear()` with no pattern, clearing
everything (fourth conjunct); with keys `user:1`, `user:2`, `post:1`,
`clear("user:*")` removes exactly the first two, while a key with a line feed
in the wildcard's span does not match (final conjunct). -/
theorem c8_clear :
    (∀ s : MemoryStore,
        s.clear none = { s with cache := [], rateLimits := [], tagIndex := [] }) ∧
    (∀ (s : MemoryStore) (p k : String), p ≠ "" → s.Wf →
        mapFind (s.clear (some p)).cache k =
          (if matchesPattern k p then none else mapFind s.cache k) ∧
        mapFind (s.clear (some p)).rateLimits k =
          (if matchesPattern k p then none else mapFind s.rateLimits k)) ∧
    (∀ k p : String, p.data.contains '*' = false → matchesPattern k p = (k == p)) ∧
    (∀ s : MemoryStore,
        s.clear (some "") = { s with cache := [], rateLimits := [], tagIndex := [] }) ∧
    ((storeUsers.clear (some "user:*")).cache.map Prod.fst = ["post:1"] ∧
      matchesPattern "user:1" "user:*" = true ∧
      matchesPattern "user:2" "user:*" = true ∧
      matchesPattern "post:1" "user:*" = false ∧
      matchesPattern "user:\n1" "user:*" = false ∧
      matchesPattern "user:\r1" "user:*" = false) := by
  refine ⟨fun s => rfl, ?_, ?_, fun s => rfl, by decide⟩
  · intro s p k hp hwf
    obtain ⟨hc, hr, -⟩ := hwf
    have hcache :
        (s.clear (some p)).cache =
          ((s.cache.map Prod.fst).filter (fun k0 => matchesPattern k0 p)).foldl
            mapDelete s.cache := by
      simp only [MemoryStore.clear, if_neg hp, foldl_delete_cache]
    have hrl :
        (s.clear (some p)).rateLimits =
          (((s.cache.map Prod.fst).filter (fun k0 => matchesPattern k0 p)).foldl
              mapDelete s.rateLimits).filter (fun kv => !matchesPattern kv.1 p) := by
      simp only [MemoryStore.clear, if_neg hp, foldl_delete_rateLimits]
    constructor
    · rw [hcache]
      by_cases hm : matchesPattern k p
      · rw [if_pos hm]
        by_cases hfind : mapFind s.cache k = none
        · exact mapFind_foldl_mapDelete_none _ _ _ hfind
        · have hmem : k ∈ (s.cache.map Prod.fst).filter (fun k0 => matchesPattern k0 p) :=
            List.mem_filter.mpr
              ⟨by
                 by_contra hnm
                 exact hfind ((mapFind_eq_none_iff _ _).mpr hnm), hm⟩
          exact mapFind_foldl_mapDelete_mem _ _ _ hc hmem
      · rw [if_neg hm]
        apply mapFind_foldl_mapDelete_not_mem
        intro hmem
        exact hm (List.mem_filter.mp hmem).2
    · rw [hrl]
      by_cases hm : matchesPattern k p
      · rw [if_pos hm]
        apply mapFind_filter_key_false
        intro v
        simp [hm]
      · rw [if_neg hm]
        rw [mapFind_filter_key_true]
        · apply mapFind_foldl_mapDelete_not_mem
          intro hmem
          exact hm (List.mem_filter.mp hmem).2
        · intro v
          simp [hm]
  · intro k p hstar
    unfold matchesPattern
    rw [hstar]
    rfl

/-- Witness for C8: clearing with the nonempty glob `"user:*"` on a store
holding a cache entry and a rate-limit counter under `"user:1"`. -/
theorem c8_witness :
    mapFind (((((MemoryStore.empty none).increment 0 "user:1" 50).2.set 0
        "user:1" ⟨1, []⟩ none).clear (some "user:*")).cache) "user:1" =
      (if matchesPattern "user:1" "user:*" then none
       else mapFind (((MemoryStore.empty none).increment 0 "user:1" 50).2.set 0
         "user:1" ⟨1, []⟩ none).cache "user:1") ∧
    mapFind (((((MemoryStore.empty none).increment 0 "user:1" 50).2.set 0
        "user:1" ⟨1, []⟩ none).clear (some "user:*")).rateLimits) "user:1" =
      (if matchesPattern "user:1" "user:*" then none
       else mapFind (((MemoryStore.empty none).increment 0 "user:1" 50).2.set 0
         "user:1" ⟨1, []⟩ none).rateLimits "user:1") :=
  c8_clear.2.1 (((MemoryStore.empty none).increment 0 "user:1" 50).2.set 0
    "user:1" ⟨1, []⟩ none) "user:*" "user:1" (by decide) (by decide)

/-- A store holding an expired cache entry under `"k"` and an elapsed
rate-limit counter under `"r"`, used to witness C9 at instant `10`. -/
def storeC9 : MemoryStore :=
  (((MemoryStore.empty none).set 0 "k" ⟨1, []⟩ (some 5)).increment 0 "r" 3).2

/-- Witness for C9: sweeping the store with both kinds of elapsed entries at
instant `10` changes neither the `get` result nor the `increment` result. -/
theorem c9_witness :
    ((storeC9.cleanupExpired 10).get 10 "r").1 = (storeC9.get 10 "r").1 ∧
    ((storeC9.cleanupExpired 10).increment 10 "r" 7).1 =
      (storeC9.increment 10 "r" 7).1 :=
  c9_sweep_neutral storeC9 10 "r" 7 (by decide)
